import Mathlib

/-!
# Verification of the CSV web-server backend (`src/rust-backend/src/main.rs`)

This file gives a shallow embedding of the request handlers of the Rust
backend and proves properties about them.  Text is modelled at the
character level (`List Char`), mirroring the byte/char-level string
operations of the source (`str::lines`, `String::find('\n')`, slicing,
`ends_with('\n')`).  Filesystem writes become fields of an explicit
server state; fallible I/O is modelled by injected success flags.
-/

namespace WS

/-- Characters of a string literal, used to write concrete inputs. -/
def strChars (s : String) : List Char := s.data

/-- Split a character list on `'\n'`; the separators are consumed.
Mirrors the segment structure underlying Rust's `str::lines` (always
returns at least one, possibly empty, segment). -/
def splitNl : List Char → List (List Char)
  | [] => [[]]
  | c :: cs =>
    if c = '\n' then [] :: splitNl cs
    else
      match splitNl cs with
      | [] => [[c]]
      | l :: ls => (c :: l) :: ls

/-- Remove one trailing `'\r'`, as Rust's `lines` does for a `"\r\n"`
line ending. -/
def chomp (l : List Char) : List Char :=
  match l.getLast? with
  | some '\r' => l.dropLast
  | _ => l

/-- The contribution of the final `'\n'`-separated segment to `lines`:
an empty final segment (i.e. the text ended with `'\n'`) is dropped, a
non-empty one is kept verbatim. -/
def lastPiece (parts : List (List Char)) : List (List Char) :=
  match parts.getLast? with
  | some [] => []
  | some l => [l]
  | none => []

/-- Rust's `str::lines`: split on `'\n'`, strip a `'\r'` before each
consumed `'\n'`, and drop the optional final empty segment. -/
def rustLines (s : List Char) : List (List Char) :=
  ((splitNl s).dropLast.map chomp) ++ lastPiece (splitNl s)

/-- Rust's `Vec::join("\n")`. -/
def joinNl : List (List Char) → List Char
  | [] => []
  | [l] => l
  | l :: ls => l ++ '\n' :: joinNl ls

/-- Everything after the first `'\n'`, when there is one
(Rust's `buf.find('\n')` followed by `buf[pos + 1..]`). -/
def afterFirstNl : List Char → Option (List Char)
  | [] => none
  | c :: cs => if c = '\n' then some cs else afterFirstNl cs

/-- `if let Some(pos) = buf.find('\n') { buf = buf[pos + 1..] }`:
drop the first line and its terminator when a terminator exists,
otherwise leave the text unchanged. -/
def dropThroughNl (s : List Char) : List Char :=
  (afterFirstNl s).getD s

/-- An uploaded request body.  `validUtf8` records whether the raw
bytes are valid UTF-8; `lossy` is the text produced by
`String::from_utf8_lossy` (equal to the exact decoding whenever
`validUtf8` is true). -/
structure Body where
  validUtf8 : Bool
  lossy : List Char
deriving DecidableEq

/-- The process-wide mutable state of the server: the `RecordingState`
behind the mutex (`active`, `start_idx`), the two atomic counters
`CURRENT_RECEIVING` and `CURRENT_SENDING`, and the filesystem contents
(`csv_packets/<i>.csv` files and `csv_packets/MASTER.csv`). -/
structure ServerState where
  active : Bool
  startIdx : Nat
  receiving : Nat
  sending : Nat
  packets : Nat → Option Body
  masterExists : Bool
  master : List Char

/-- State right after `main`'s startup cleanup: `MASTER.csv` removed,
all packet files removed, counters at 0, recording inactive. -/
def initState : ServerState :=
  { active := false, startIdx := 0, receiving := 0, sending := 0,
    packets := fun _ => none, masterExists := false, master := [] }

/-- Outcome of `POST /upload`. -/
inductive UploadResult where
  /-- 200 "CSV stored & appended". -/
  | ok
  /-- 400 "CSV must be valid UTF-8". -/
  | badRequest
  /-- 500 "Failed to store packet file". -/
  | pktWriteErr
  /-- 500 "Failed to append to MASTER.csv". -/
  | masterWriteErr
deriving DecidableEq

/-- Injected outcome of the master-record append
(`OpenOptions::new().create(true).append(true).open(MASTER_CSV)`
followed by the two buffered writes).  The three cases matter because
`create(true)` creates `MASTER.csv` as soon as the open succeeds, even
if a write fails afterwards. -/
inductive AppendOutcome where
  /-- Open and both writes succeed. -/
  | ok
  /-- The open itself fails: `MASTER.csv` is not created. -/
  | openErr
  /-- The open succeeds — creating `MASTER.csv` if it was missing —
  and a subsequent write fails. -/
  | writeErr
deriving DecidableEq

/-- Whether the append attempt got as far as a successful open, i.e.
whether `create(true)` has made `MASTER.csv` exist. -/
def AppendOutcome.opened : AppendOutcome → Bool
  | .openErr => false
  | .writeErr => true
  | .ok => true

/-- `upload_csv`.  `pktWriteOk` injects the success of `fs::write` for
the packet file; `masterAppend` injects the fate of the `MASTER.csv`
append.  On `writeErr` the open has created `MASTER.csv` (so
`masterExists` becomes true) while the bytes on disk are some
unspecified prefix of the intended append; since no handler ever reads
`MASTER.csv` back, the model leaves the `master` content unchanged in
that case. -/
def uploadCsv (pktWriteOk : Bool) (masterAppend : AppendOutcome)
    (st : ServerState) (body : Body) : UploadResult × ServerState :=
  -- decide what to append to MASTER.csv
  if st.masterExists && !body.validUtf8 then
    (.badRequest, st)
  else
    let cleaned :=
      if st.masterExists then joinNl ((rustLines body.lossy).drop 1)
      else body.lossy
    -- write the per-packet file (raw body) at CURRENT_RECEIVING
    let idx := st.receiving
    if !pktWriteOk then
      (.pktWriteErr, st)
    else
      let st1 := { st with
        packets := fun i => if i = idx then some body else st.packets i }
      -- append `cleaned` plus a newline to MASTER.csv
      match masterAppend with
      | .openErr => (.masterWriteErr, st1)
      | .writeErr => (.masterWriteErr, { st1 with masterExists := true })
      | .ok =>
        let st2 := { st1 with
          master := st1.master ++ cleaned ++ ['\n'],
          masterExists := true,
          receiving := idx + 1 }
        (.ok, st2)

/-- Outcome of `GET /data`. -/
inductive PollResult where
  /-- 204 No Content. -/
  | noContent
  /-- 200 with one packet's text. -/
  | okBody (content : List Char)
  /-- 500 "Failed to read packet {idx}". -/
  | readErr (idx : Nat)
deriving DecidableEq

/-- The locked phase of `get_data`: under the mutex it checks `active`,
loads `CURRENT_SENDING` and `CURRENT_RECEIVING`, and decides whether to
stream.  `some idx` means the handler will read packet `idx` after the
lock is dropped; `none` is the 204 no-content path. -/
def pollCheck (st : ServerState) : Option Nat :=
  if !st.active then none
  else if st.sending ≥ st.receiving then none
  else some st.sending

/-- The unlocked phase of `get_data` (after `drop(st)`): read packet
file `idx` (`read_to_string` fails on a missing file or invalid UTF-8
content); on success `CURRENT_SENDING.fetch_add(1)` — an atomic
increment of the then-current counter value, not a store of `idx + 1`. -/
def pollDeliver (st : ServerState) (idx : Nat) : PollResult × ServerState :=
  match st.packets idx with
  | none => (.readErr idx, st)
  | some b =>
    if b.validUtf8 then
      (.okBody b.lossy, { st with sending := st.sending + 1 })
    else
      (.readErr idx, st)

/-- `get_data` as one uninterleaved call: the locked check phase
immediately followed by the delivery phase.  Concurrent `GET /data`
calls can interleave the two phases, because the lock is dropped
between them. -/
def getData (st : ServerState) : PollResult × ServerState :=
  match pollCheck st with
  | none => (.noContent, st)
  | some idx => pollDeliver st idx

/-- Outcome of `POST /demo/start`. -/
inductive StartResult where
  /-- 400 "Demo already running". -/
  | alreadyRunning
  /-- 200 "Recording started". -/
  | started
deriving DecidableEq

/-- `start_demo`. -/
def startDemo (st : ServerState) : StartResult × ServerState :=
  if st.active then
    (.alreadyRunning, st)
  else
    (.started, { st with
      active := true,
      startIdx := st.receiving,
      sending := st.receiving })

/-- One iteration of `stop_demo`'s concatenation loop: skip a missing
packet file; read the file (`""` when `read_to_string` fails on
invalid UTF-8); for `idx != start_idx` drop through the first `'\n'`
when present; append; ensure the accumulated text ends with `'\n'`. -/
def combineStep (packets : Nat → Option Body) (startIdx : Nat)
    (combined : List Char) (idx : Nat) : List Char :=
  match packets idx with
  | none => combined
  | some b =>
    let buf := if b.validUtf8 then b.lossy else []
    let buf := if idx ≠ startIdx then dropThroughNl buf else buf
    let combined := combined ++ buf
    if combined.getLast? = some '\n' then combined else combined ++ ['\n']

/-- The index list of the Rust loop `for idx in start_idx..end_idx`. -/
def forRange (s : Nat) : Nat → List Nat
  | 0 => []
  | n + 1 => s :: forRange (s + 1) n

/-- `stop_demo`'s packet concatenation over `start_idx..end_idx`. -/
def stopCombine (packets : Nat → Option Body) (startIdx endIdx : Nat) :
    List Char :=
  (forRange startIdx (endIdx - startIdx)).foldl (combineStep packets startIdx) []

/-- Outcome of `POST /demo/stop`, up to the outbound network call:
either the 400 "No demo running" rejection, or the handler proceeds to
POST the concatenated payload to the inference service. -/
inductive StopOutcome where
  /-- 400 "No demo running". -/
  | notRunning
  /-- The handler POSTs `payload` (as `csv_data`) to the inference
  service; the HTTP response then mirrors the service's reply. -/
  | forward (payload : List Char)
deriving DecidableEq

/-- `stop_demo`: reject when idle, otherwise clear `active`, capture
`end_idx = CURRENT_RECEIVING`, concatenate the stored packets of
`start_idx..end_idx`, and forward the result. -/
def stopDemo (st : ServerState) : StopOutcome × ServerState :=
  if !st.active then
    (.notRunning, st)
  else
    let endIdx := st.receiving
    (.forward (stopCombine st.packets st.startIdx endIdx),
     { st with active := false })

/-- A request against the server, with injected I/O outcomes for
uploads. -/
inductive Op where
  | upload (pktWriteOk : Bool) (masterAppend : AppendOutcome) (body : Body)
  | poll
  | start
  | stop

/-- State transition of one request. -/
def step (st : ServerState) : Op → ServerState
  | .upload p ao b => (uploadCsv p ao st b).2
  | .poll => (getData st).2
  | .start => (startDemo st).2
  | .stop => (stopDemo st).2

/-- Run a sequence of requests from the post-startup state. -/
def run (ops : List Op) : ServerState :=
  ops.foldl step initState

/-- The text of a possibly-missing stored packet (empty when missing). -/
def contentOf : Option Body → List Char
  | some b => b.lossy
  | none => []

/-- Whether an operation is an upload whose packet write succeeds and
whose master append reaches a successful open — i.e. an upload after
which `MASTER.csv` exists, even when the append's write then fails. -/
def opensMasterUpload : Op → Bool
  | .upload p ao _ => p && ao.opened
  | _ => false

/-- First example packet of the spec's dedup example. -/
def pktOne : Body := ⟨true, strChars "t,v\n1,10\n2,20\n"⟩

/-- Second example packet of the spec's dedup example: its row `2,20`
repeats the last row of `pktOne`. -/
def pktTwo : Body := ⟨true, strChars "t,v\n2,20\n3,30\n"⟩

/-- Start a session, then ingest the spec's two example packets. -/
def dedupOps : List Op :=
  [.start, .upload true .ok pktOne, .upload true .ok pktTwo]

/-- Start a session and ingest two single-row packets. -/
def capOps : List Op :=
  [.start,
   .upload true .ok ⟨true, strChars "t,v\n1,10\n"⟩,
   .upload true .ok ⟨true, strChars "t,v\n2,20\n"⟩]

/-- A third single-row packet. -/
def capPkt : Body := ⟨true, strChars "t,v\n3,30\n"⟩

/-- A body whose raw bytes are not valid UTF-8; `lossy` is its
replacement-character decoding. -/
def invalidBody : Body := ⟨false, strChars "t,v\n1,10\n"⟩

/-- A store holding a normal packet at index 0 and a header-only packet
without a trailing newline at index 1. -/
def hdrOnlyStore : Nat → Option Body := fun i =>
  if i = 0 then some ⟨true, strChars "t,v\n1,10\n"⟩
  else if i = 1 then some ⟨true, strChars "t,v"⟩
  else none

/-- A store holding the two example packets. -/
def demoStore : Nat → Option Body := fun i =>
  if i = 0 then some pktOne else if i = 1 then some pktTwo else none

/-- A concrete mid-recording state used to instantiate theorems. -/
def recSt : ServerState :=
  { active := true, startIdx := 0, receiving := 2, sending := 0,
    packets := demoStore, masterExists := true,
    master := strChars "t,v\n1,10\n2,20\n\n2,20\n3,30\n" }

/-- A recording state with exactly one undelivered packet:
`sending = 0 < receiving = 1`, packet 0 stored. -/
def raceSt : ServerState :=
  { active := true, startIdx := 0, receiving := 1, sending := 0,
    packets := fun i => if i = 0 then some pktOne else none,
    masterExists := true, master := strChars "t,v\n1,10\n2,20\n\n" }

/-! ## Lemmas about the character-level string operations -/

theorem splitNl_ne_nil (s : List Char) : splitNl s ≠ [] := by
  cases s with
  | nil => simp [splitNl]
  | cons c cs =>
    simp only [splitNl]
    split
    · simp
    · split <;> simp

theorem splitNl_cons_nl (cs : List Char) :
    splitNl ('\n' :: cs) = [] :: splitNl cs := by
  simp [splitNl]

theorem splitNl_cons_of_ne (c : Char) (cs : List Char) (hc : ¬ c = '\n')
    (l : List Char) (ls : List (List Char)) (h : splitNl cs = l :: ls) :
    splitNl (c :: cs) = (c :: l) :: ls := by
  simp only [splitNl, if_neg hc, h]

theorem dropLast_cons₂ {α : Type} (a b : α) (l : List α) :
    (a :: b :: l).dropLast = a :: (b :: l).dropLast := rfl

theorem getLastD_of_ne_nil {α : Type} (l : List α) (h : l ≠ []) (d d' : α) :
    l.getLastD d = l.getLastD d' := by
  rw [List.getLastD_eq_getLast?, List.getLastD_eq_getLast?]
  cases hl : l.getLast? with
  | none => exact absurd (List.getLast?_eq_none_iff.mp hl) h
  | some x => rfl

theorem splitNl_append (a b : List Char) :
    splitNl (a ++ b) = (splitNl a).dropLast ++
      ((splitNl a).getLastD [] ++ (splitNl b).headD []) :: (splitNl b).tail := by
  induction a with
  | nil =>
    cases h : splitNl b with
    | nil => exact absurd h (splitNl_ne_nil b)
    | cons l ls => simp [splitNl, h]
  | cons c cs ih =>
    by_cases hc : c = '\n'
    · subst hc
      rw [List.cons_append, splitNl_cons_nl, splitNl_cons_nl, ih]
      cases h : splitNl cs with
      | nil => exact absurd h (splitNl_ne_nil cs)
      | cons l ls =>
        simp [dropLast_cons₂, List.getLastD_cons]
    · rw [List.cons_append]
      cases h : splitNl cs with
      | nil => exact absurd h (splitNl_ne_nil cs)
      | cons l ls =>
        rw [h] at ih
        cases ls with
        | nil =>
          simp only [List.dropLast_single, List.nil_append,
            List.getLastD_cons, List.getLastD_nil] at ih
          rw [splitNl_cons_of_ne c _ hc _ _ ih,
              splitNl_cons_of_ne c cs hc l [] h]
          simp [List.getLastD_cons]
        | cons l' ls' =>
          rw [dropLast_cons₂, List.cons_append] at ih
          rw [splitNl_cons_of_ne c _ hc _ _ ih,
              splitNl_cons_of_ne c cs hc l (l' :: ls') h]
          simp [dropLast_cons₂, List.getLastD_cons]


theorem dropLast_append_getLastD {α : Type} (l : List α) (h : l ≠ []) (d : α)
    (r : List α) : l.dropLast ++ l.getLastD d :: r = l ++ r := by
  have h1 : l.getLastD d = l.getLast h := by
    rw [List.getLastD_eq_getLast?, List.getLast?_eq_getLast l h]
    rfl
  rw [h1]
  conv_rhs => rw [← List.dropLast_append_getLast h]
  simp [List.append_assoc]

theorem splitNl_concat_nl (a : List Char) :
    splitNl (a ++ ['\n']) = splitNl a ++ [[]] := by
  rw [splitNl_append]
  show (splitNl a).dropLast ++ ((splitNl a).getLastD [] ++ ([] : List Char)) :: [([] : List Char)] = _
  rw [List.append_nil]
  exact dropLast_append_getLastD _ (splitNl_ne_nil a) [] [[]]

theorem splitNl_of_endsNl (s : List Char) (h : s.getLast? = some '\n') :
    ∃ p, splitNl s = p ++ [[]] := by
  obtain ⟨t, rfl⟩ := List.getLast?_eq_some_iff.mp h
  exact ⟨splitNl t, splitNl_concat_nl t⟩

theorem lastPiece_of_endsNl (s : List Char) (h : s.getLast? = some '\n') :
    lastPiece (splitNl s) = [] := by
  obtain ⟨p, hp⟩ := splitNl_of_endsNl s h
  rw [hp]
  unfold lastPiece
  rw [List.getLast?_concat]

theorem rustLines_of_endsNl (s : List Char) (h : s.getLast? = some '\n') :
    rustLines s = (splitNl s).dropLast.map chomp := by
  unfold rustLines
  rw [lastPiece_of_endsNl s h, List.append_nil]

theorem splitNl_getLastD_of_endsNl (s : List Char) (h : s.getLast? = some '\n') :
    (splitNl s).getLastD [] = [] := by
  obtain ⟨p, hp⟩ := splitNl_of_endsNl s h
  rw [hp, List.getLastD_eq_getLast?, List.getLast?_concat]
  rfl

theorem splitNl_append_of_endsNl (a b : List Char) (h : a.getLast? = some '\n') :
    splitNl (a ++ b) = (splitNl a).dropLast ++ splitNl b := by
  rw [splitNl_append, splitNl_getLastD_of_endsNl a h, List.nil_append]
  cases hb : splitNl b with
  | nil => exact absurd hb (splitNl_ne_nil b)
  | cons l ls => simp

theorem rustLines_append_of_endsNl (a b : List Char) (h : a.getLast? = some '\n') :
    rustLines (a ++ b) = rustLines a ++ rustLines b := by
  unfold rustLines
  rw [splitNl_append_of_endsNl a b h,
      List.dropLast_append_of_ne_nil _ (splitNl_ne_nil b), List.map_append]
  have hlp : lastPiece ((splitNl a).dropLast ++ splitNl b) = lastPiece (splitNl b) := by
    unfold lastPiece
    rw [List.getLast?_append]
    cases hb : (splitNl b).getLast? with
    | none => exact absurd (List.getLast?_eq_none_iff.mp hb) (splitNl_ne_nil b)
    | some x => rfl
  rw [hlp, lastPiece_of_endsNl a h]
  simp [List.append_assoc]

theorem rustLines_nl_cons (cs : List Char) :
    rustLines ('\n' :: cs) = [] :: rustLines cs := by
  unfold rustLines
  rw [splitNl_cons_nl]
  cases h : splitNl cs with
  | nil => exact absurd h (splitNl_ne_nil cs)
  | cons l ls =>
    have hlp : lastPiece ([] :: l :: ls) = lastPiece (l :: ls) := by
      unfold lastPiece
      rw [List.getLast?_cons_cons]
    rw [dropLast_cons₂, hlp]
    rfl

theorem afterFirstNl_isSome_of_mem (s : List Char) (h : '\n' ∈ s) :
    ∃ t, afterFirstNl s = some t := by
  induction s with
  | nil => simp at h
  | cons c cs ih =>
    by_cases hc : c = '\n'
    · subst hc
      exact ⟨cs, by simp [afterFirstNl]⟩
    · have h' : '\n' ∈ cs := by
        rcases List.mem_cons.mp h with h1 | h1
        · exact absurd h1.symm hc
        · exact h1
      obtain ⟨t, ht⟩ := ih h'
      exact ⟨t, by simp [afterFirstNl, hc, ht]⟩

theorem afterFirstNl_suffix (s t : List Char) (h : afterFirstNl s = some t) :
    t.IsSuffix s := by
  induction s with
  | nil => simp [afterFirstNl] at h
  | cons c cs ih =>
    by_cases hc : c = '\n'
    · subst hc
      have he : afterFirstNl ('\n' :: cs) = some cs := by simp [afterFirstNl]
      rw [he, Option.some.injEq] at h
      subst h
      exact List.suffix_cons '\n' cs
    · simp only [afterFirstNl, if_neg hc] at h
      exact (ih h).trans (List.suffix_cons c cs)

theorem dropThroughNl_nil : dropThroughNl [] = [] := rfl

theorem dropThroughNl_nl_cons (cs : List Char) :
    dropThroughNl ('\n' :: cs) = cs := by
  simp [dropThroughNl, afterFirstNl]

theorem dropThroughNl_endsNl (s : List Char) (h : s.getLast? = some '\n') :
    dropThroughNl s = [] ∨ (dropThroughNl s).getLast? = some '\n' := by
  unfold dropThroughNl
  cases ha : afterFirstNl s with
  | none => right; simpa using h
  | some t =>
    obtain ⟨u, hu⟩ := afterFirstNl_suffix s t ha
    cases t with
    | nil => left; rfl
    | cons x xs =>
      right
      rw [← hu, List.getLast?_append] at h
      cases hx : (x :: xs).getLast? with
      | none =>
        exact absurd (List.getLast?_eq_none_iff.mp hx) (by simp)
      | some y =>
        rw [hx] at h
        have hy : y = '\n' := by simpa using h
        show (x :: xs).getLast? = some '\n'
        rw [hx, hy]

theorem splitNl_two_of_mem (cs : List Char) (h : '\n' ∈ cs) :
    ∃ l ls, splitNl cs = l :: ls ∧ ls ≠ [] := by
  induction cs with
  | nil => simp at h
  | cons c cs ih =>
    by_cases hc : c = '\n'
    · subst hc
      exact ⟨[], splitNl cs, splitNl_cons_nl cs, splitNl_ne_nil cs⟩
    · have h' : '\n' ∈ cs := by
        rcases List.mem_cons.mp h with h1 | h1
        · exact absurd h1.symm hc
        · exact h1
      obtain ⟨l, ls, hs, hls⟩ := ih h'
      exact ⟨c :: l, ls, splitNl_cons_of_ne c cs hc l ls hs, hls⟩

theorem rustLines_drop_one_cons (c : Char) (cs : List Char) (hc : ¬ c = '\n')
    (h : '\n' ∈ cs) :
    (rustLines (c :: cs)).drop 1 = (rustLines cs).drop 1 := by
  obtain ⟨l, ls, hs, hls⟩ := splitNl_two_of_mem cs h
  cases ls with
  | nil => exact absurd rfl hls
  | cons l' ls' =>
    unfold rustLines
    rw [splitNl_cons_of_ne c cs hc _ _ hs, hs]
    have hlp : lastPiece ((c :: l) :: l' :: ls') = lastPiece (l :: l' :: ls') := by
      unfold lastPiece
      rw [List.getLast?_cons_cons, List.getLast?_cons_cons]
    rw [hlp, dropLast_cons₂, dropLast_cons₂]
    simp

theorem mem_of_endsNl (s : List Char) (h : s.getLast? = some '\n') : '\n' ∈ s := by
  obtain ⟨t, rfl⟩ := List.getLast?_eq_some_iff.mp h
  simp

theorem rustLines_dropThroughNl (s : List Char) (h : s.getLast? = some '\n') :
    rustLines (dropThroughNl s) = (rustLines s).drop 1 := by
  induction s with
  | nil => simp at h
  | cons c cs ih =>
    by_cases hc : c = '\n'
    · subst hc
      rw [dropThroughNl_nl_cons, rustLines_nl_cons]
      rfl
    · have hcs : cs ≠ [] := by
        intro e
        subst e
        simp only [List.getLast?_singleton, Option.some.injEq] at h
        exact hc h
      have hcsl : cs.getLast? = some '\n' := by
        cases cs with
        | nil => exact absurd rfl hcs
        | cons b bs => rwa [List.getLast?_cons_cons] at h
      have hmem : '\n' ∈ cs := mem_of_endsNl cs hcsl
      obtain ⟨t, ht⟩ := afterFirstNl_isSome_of_mem cs hmem
      have h1 : dropThroughNl (c :: cs) = dropThroughNl cs := by
        simp [dropThroughNl, afterFirstNl, hc, ht]
      rw [h1, ih hcsl, rustLines_drop_one_cons c cs hc hmem]

theorem rustLines_nil : rustLines [] = [] := rfl

theorem mem_forRange (i s n : Nat) : i ∈ forRange s n ↔ s ≤ i ∧ i < s + n := by
  induction n generalizing s with
  | zero => simp [forRange]
  | succ n ih =>
    simp only [forRange, List.mem_cons, ih]
    omega

theorem combineStep_of_stored (packets : Nat → Option Body) (startIdx : Nat)
    (acc : List Char) (hacc : acc.getLast? = some '\n') (i : Nat)
    (hne : i ≠ startIdx) (b : Body) (hb : packets i = some b)
    (hv : b.validUtf8 = true) (hnl : b.lossy.getLast? = some '\n') :
    combineStep packets startIdx acc i = acc ++ dropThroughNl b.lossy := by
  unfold combineStep
  rw [hb]
  simp only [hv, if_pos, if_neg, hne, ite_true, ite_false, ne_eq,
    not_false_eq_true]
  rcases dropThroughNl_endsNl b.lossy hnl with hz | hz
  · rw [hz, List.append_nil, if_pos hacc]
  · rw [if_pos]
    rw [List.getLast?_append, hz]
    rfl

theorem combine_go (packets : Nat → Option Body) (startIdx : Nat)
    (l : List Nat) (acc : List Char) (hacc : acc.getLast? = some '\n')
    (h : ∀ i ∈ l, i ≠ startIdx ∧
      ∃ b, packets i = some b ∧ b.validUtf8 = true ∧ b.lossy.getLast? = some '\n') :
    l.foldl (combineStep packets startIdx) acc
      = acc ++ (l.map (fun i => dropThroughNl (contentOf (packets i)))).flatten := by
  induction l generalizing acc with
  | nil => simp
  | cons i l ih =>
    obtain ⟨hne, b, hb, hv, hnl⟩ := h i (List.mem_cons_self i l)
    have hstep := combineStep_of_stored packets startIdx acc hacc i hne b hb hv hnl
    rw [List.foldl_cons, hstep]
    have hacc' : (acc ++ dropThroughNl b.lossy).getLast? = some '\n' := by
      rcases dropThroughNl_endsNl b.lossy hnl with hz | hz
      · rw [hz, List.append_nil]; exact hacc
      · rw [List.getLast?_append, hz]; rfl
    rw [ih (acc ++ dropThroughNl b.lossy) hacc'
      (fun j hj => h j (List.mem_cons_of_mem i hj))]
    rw [List.map_cons, List.flatten_cons, hb]
    show _ = acc ++ (dropThroughNl b.lossy ++ _)
    rw [List.append_assoc]

theorem stopCombine_of_stored (packets : Nat → Option Body)
    (startIdx endIdx : Nat) (hlt : startIdx < endIdx)
    (hstored : ∀ i, startIdx ≤ i → i < endIdx →
      ∃ b, packets i = some b ∧ b.validUtf8 = true ∧ b.lossy.getLast? = some '\n') :
    stopCombine packets startIdx endIdx
      = contentOf (packets startIdx)
        ++ ((forRange (startIdx + 1) (endIdx - (startIdx + 1))).map
            (fun i => dropThroughNl (contentOf (packets i)))).flatten := by
  obtain ⟨b0, hb0, hv0, hnl0⟩ := hstored startIdx le_rfl hlt
  unfold stopCombine
  have hn : endIdx - startIdx = (endIdx - (startIdx + 1)) + 1 := by omega
  rw [hn]
  show (List.foldl (combineStep packets startIdx)
    (combineStep packets startIdx [] startIdx)
    (forRange (startIdx + 1) (endIdx - (startIdx + 1)))) = _
  have hfirst : combineStep packets startIdx [] startIdx = b0.lossy := by
    unfold combineStep
    rw [hb0]
    simp only [hv0, ite_true, ne_eq, not_true_eq_false, ite_false,
      List.nil_append]
    rw [if_pos hnl0]
  rw [hfirst, combine_go packets startIdx _ b0.lossy hnl0 ?hyp, hb0]
  case hyp =>
    intro i hi
    rw [mem_forRange] at hi
    exact ⟨by omega, hstored i (by omega) (by omega)⟩
  rfl

theorem rustLines_concat_drops (p0 : List Char) (h0 : p0.getLast? = some '\n')
    (ps : List (List Char)) (hps : ∀ p ∈ ps, p.getLast? = some '\n') :
    rustLines (p0 ++ (ps.map dropThroughNl).flatten)
      = rustLines p0 ++ (ps.map (fun p => (rustLines p).drop 1)).flatten := by
  induction ps generalizing p0 with
  | nil => simp
  | cons p ps ih =>
    have hp : p.getLast? = some '\n' := hps p (List.mem_cons_self p ps)
    have htail : ∀ q ∈ ps, q.getLast? = some '\n' :=
      fun q hq => hps q (List.mem_cons_of_mem p hq)
    rw [List.map_cons, List.flatten_cons, List.map_cons, List.flatten_cons]
    rcases dropThroughNl_endsNl p hp with hz | hz
    · rw [hz, List.nil_append, ih p0 h0 htail]
      have hd : (rustLines p).drop 1 = [] := by
        rw [← rustLines_dropThroughNl p hp, hz, rustLines_nil]
      rw [hd, List.nil_append]
    · rw [← List.append_assoc]
      have h0' : (p0 ++ dropThroughNl p).getLast? = some '\n' := by
        rw [List.getLast?_append, hz]; rfl
      rw [ih (p0 ++ dropThroughNl p) h0' htail,
          rustLines_append_of_endsNl p0 _ h0, rustLines_dropThroughNl p hp,
          List.append_assoc]

/-! ## Frame lemmas about the handlers -/

theorem uploadCsv_frame (p : Bool) (ao : AppendOutcome) (st : ServerState)
    (b : Body) :
    (uploadCsv p ao st b).2.sending = st.sending
  ∧ (uploadCsv p ao st b).2.active = st.active
  ∧ (uploadCsv p ao st b).2.startIdx = st.startIdx := by
  unfold uploadCsv
  cases ao <;> split_ifs <;> exact ⟨rfl, rfl, rfl⟩

theorem uploadCsv_receiving_cases (p : Bool) (ao : AppendOutcome)
    (st : ServerState) (b : Body) :
    ((uploadCsv p ao st b).1 = .ok
      ∧ (uploadCsv p ao st b).2.receiving = st.receiving + 1)
  ∨ ((uploadCsv p ao st b).1 ≠ .ok
      ∧ (uploadCsv p ao st b).2.receiving = st.receiving) := by
  unfold uploadCsv
  cases ao <;> split_ifs <;> simp

theorem uploadCsv_masterExists (p : Bool) (ao : AppendOutcome)
    (st : ServerState) (b : Body) :
    (uploadCsv p ao st b).2.masterExists
      = (st.masterExists || (p && ao.opened)) := by
  unfold uploadCsv
  cases p <;> cases ao <;> cases hm : st.masterExists <;>
    cases hv : b.validUtf8 <;> simp [hm, hv, AppendOutcome.opened]

theorem uploadCsv_ok_result (st : ServerState) (b : Body)
    (h : st.masterExists = true → b.validUtf8 = true) :
    (uploadCsv true .ok st b).1 = .ok
  ∧ (uploadCsv true .ok st b).2.receiving = st.receiving + 1
  ∧ (uploadCsv true .ok st b).2.packets st.receiving = some b
  ∧ (uploadCsv true .ok st b).2.masterExists = true
  ∧ (uploadCsv true .ok st b).2.master
      = st.master
        ++ (if st.masterExists then joinNl ((rustLines b.lossy).drop 1)
            else b.lossy)
        ++ ['\n'] := by
  have hcond : (st.masterExists && !b.validUtf8) = false := by
    cases hm : st.masterExists
    · rfl
    · rw [h hm]
      rfl
  unfold uploadCsv
  rw [hcond]
  simp

theorem getData_inactive (st : ServerState) (h : st.active = false) :
    getData st = (.noContent, st) := by
  simp [getData, pollCheck, h]

theorem pollCheck_some (st : ServerState) (idx : Nat)
    (h : pollCheck st = some idx) :
    st.active = true ∧ st.sending < st.receiving ∧ idx = st.sending := by
  revert h
  unfold pollCheck
  split_ifs with h1 h2
  · intro h
    exact absurd h (by simp)
  · intro h
    exact absurd h (by simp)
  · intro h
    rw [Option.some.injEq] at h
    refine ⟨?_, by omega, h.symm⟩
    revert h1
    cases st.active <;> simp

theorem getData_frame (st : ServerState) :
    (getData st).2.receiving = st.receiving
  ∧ (getData st).2.active = st.active
  ∧ (getData st).2.startIdx = st.startIdx
  ∧ (getData st).2.masterExists = st.masterExists
  ∧ (getData st).2.master = st.master
  ∧ ((getData st).2.sending = st.sending
      ∨ (st.sending < st.receiving ∧ (getData st).2.sending = st.sending + 1)) := by
  unfold getData
  cases hc : pollCheck st with
  | none => exact ⟨rfl, rfl, rfl, rfl, rfl, Or.inl rfl⟩
  | some idx =>
    dsimp only
    obtain ⟨-, hlt, -⟩ := pollCheck_some st idx hc
    unfold pollDeliver
    cases hp : st.packets idx with
    | none => exact ⟨rfl, rfl, rfl, rfl, rfl, Or.inl rfl⟩
    | some b =>
      dsimp only
      cases hv : b.validUtf8 with
      | false => exact ⟨rfl, rfl, rfl, rfl, rfl, Or.inl rfl⟩
      | true => exact ⟨rfl, rfl, rfl, rfl, rfl, Or.inr ⟨hlt, rfl⟩⟩

theorem startDemo_active (st : ServerState) (h : st.active = true) :
    startDemo st = (.alreadyRunning, st) := by
  simp [startDemo, h]

theorem startDemo_idle (st : ServerState) (h : st.active = false) :
    startDemo st = (.started, { st with
      active := true, startIdx := st.receiving, sending := st.receiving }) := by
  simp [startDemo, h]

theorem stopDemo_idle (st : ServerState) (h : st.active = false) :
    stopDemo st = (.notRunning, st) := by
  simp [stopDemo, h]

theorem stopDemo_active (st : ServerState) (h : st.active = true) :
    stopDemo st = (.forward (stopCombine st.packets st.startIdx st.receiving),
      { st with active := false }) := by
  simp [stopDemo, h]

theorem stopDemo_frame (st : ServerState) :
    (stopDemo st).2.receiving = st.receiving
  ∧ (stopDemo st).2.sending = st.sending
  ∧ (stopDemo st).2.startIdx = st.startIdx
  ∧ (stopDemo st).2.masterExists = st.masterExists
  ∧ (stopDemo st).2.master = st.master := by
  unfold stopDemo
  split_ifs <;> exact ⟨rfl, rfl, rfl, rfl, rfl⟩

theorem startDemo_frame (st : ServerState) :
    (startDemo st).2.receiving = st.receiving
  ∧ (startDemo st).2.masterExists = st.masterExists
  ∧ (startDemo st).2.master = st.master := by
  unfold startDemo
  split_ifs <;> exact ⟨rfl, rfl, rfl⟩

theorem step_cursor_le (st : ServerState) (h : st.sending ≤ st.receiving)
    (op : Op) : (step st op).sending ≤ (step st op).receiving := by
  cases op with
  | upload p ao b =>
    show (uploadCsv p ao st b).2.sending ≤ (uploadCsv p ao st b).2.receiving
    rw [(uploadCsv_frame p ao st b).1]
    rcases uploadCsv_receiving_cases p ao st b with ⟨_, hr⟩ | ⟨_, hr⟩ <;>
      rw [hr] <;> omega
  | poll =>
    show (getData st).2.sending ≤ (getData st).2.receiving
    obtain ⟨hr, -, -, -, -, hs⟩ := getData_frame st
    rw [hr]
    rcases hs with hs | ⟨hlt, hs⟩ <;> rw [hs] <;> omega
  | start =>
    show (startDemo st).2.sending ≤ (startDemo st).2.receiving
    cases ha : st.active
    · rw [startDemo_idle st ha]
    · rw [startDemo_active st ha]
      exact h
  | stop =>
    show (stopDemo st).2.sending ≤ (stopDemo st).2.receiving
    obtain ⟨hr, hs, -, -, -⟩ := stopDemo_frame st
    rw [hr, hs]
    exact h

theorem step_masterExists (st : ServerState) (op : Op) :
    (step st op).masterExists = (st.masterExists || opensMasterUpload op) := by
  cases op with
  | upload p ao b => exact uploadCsv_masterExists p ao st b
  | poll =>
    show (getData st).2.masterExists = _
    rw [(getData_frame st).2.2.2.1]
    simp [opensMasterUpload]
  | start =>
    show (startDemo st).2.masterExists = _
    rw [(startDemo_frame st).2.1]
    simp [opensMasterUpload]
  | stop =>
    show (stopDemo st).2.masterExists = _
    rw [(stopDemo_frame st).2.2.2.1]
    simp [opensMasterUpload]

theorem foldl_step_masterExists (ops : List Op) (st : ServerState) :
    (ops.foldl step st).masterExists = (st.masterExists || ops.any opensMasterUpload) := by
  induction ops generalizing st with
  | nil => simp
  | cons op ops ih =>
    rw [List.foldl_cons, ih, step_masterExists]
    simp [Bool.or_assoc]

theorem foldl_step_cursor_le (ops : List Op) (st : ServerState)
    (h : st.sending ≤ st.receiving) :
    (ops.foldl step st).sending ≤ (ops.foldl step st).receiving := by
  induction ops generalizing st with
  | nil => exact h
  | cons op ops ih => exact ih _ (step_cursor_le st h op)

/-! ## Claims -/

/-- Claim C1 counterexample: `upload_csv` performs no timestamp-based
dedup at all — there is no `last_accepted_timestamp` in the code.
Ingesting `"t,v\n1,10\n2,20\n"` then `"t,v\n2,20\n3,30\n"` in one
session appends the duplicate row `2,20` a second time (and also an
empty line, because the first packet already ends in a newline), so the
accepted data rows are not `1,10; 2,20; 3,30` as the claim states. -/
theorem dedup_policy_counterexample :
    (rustLines (run dedupOps).master).count (strChars "2,20") = 2
  ∧ ¬ (rustLines (run dedupOps).master).drop 1
      = [strChars "1,10", strChars "2,20", strChars "3,30"] := by
  decide

/-- Claim C1 (amended): `upload_csv` applies no per-row
ordering/deduplication policy: every data row of an uploaded packet is
appended to the master record unconditionally (the only row ever
removed is the header line, dropped exactly when `MASTER.csv` already
exists); on the spec's example the duplicate `2,20` is therefore kept. -/
theorem ingest_keeps_all_rows (st : ServerState) (b : Body)
    (hv : b.validUtf8 = true) :
    (st.masterExists = true →
      (uploadCsv true .ok st b).2.master
        = st.master ++ joinNl ((rustLines b.lossy).drop 1) ++ ['\n'])
  ∧ (st.masterExists = false →
      (uploadCsv true .ok st b).2.master = st.master ++ b.lossy ++ ['\n'])
  ∧ (run dedupOps).master = strChars "t,v\n1,10\n2,20\n\n2,20\n3,30\n" := by
  obtain ⟨-, -, -, -, hm⟩ := uploadCsv_ok_result st b (fun _ => hv)
  refine ⟨fun hme => ?_, fun hme => ?_, by decide⟩
  · rw [hm, if_pos hme]
  · rw [hm, if_neg (by simp [hme])]

/-- Witness for `ingest_keeps_all_rows` at a concrete state and body. -/
theorem ingest_keeps_all_rows_witness :
    (recSt.masterExists = true →
      (uploadCsv true .ok recSt capPkt).2.master
        = recSt.master ++ joinNl ((rustLines capPkt.lossy).drop 1) ++ ['\n'])
  ∧ (recSt.masterExists = false →
      (uploadCsv true .ok recSt capPkt).2.master
        = recSt.master ++ capPkt.lossy ++ ['\n'])
  ∧ (run dedupOps).master = strChars "t,v\n1,10\n2,20\n\n2,20\n3,30\n" :=
  ingest_keeps_all_rows recSt capPkt (by decide)

/-- Claim C2 counterexample: stopping a session with zero packets
ingested since start is not an error, but it does NOT return an
explicit empty result and it DOES make the forwarding call: the
handler posts the (empty) concatenated payload to the inference
service. -/
theorem empty_stop_forwards_counterexample :
    (stopDemo (run [Op.start])).1 = StopOutcome.forward []
  ∧ (stopDemo (run [Op.start])).1 ≠ StopOutcome.notRunning := by
  decide

/-- Claim C2 (amended): stopping with zero packets ingested since start
is accepted (not a `NotRecording` error), the assembled payload is
empty, and the handler still forwards that empty payload to the
inference collaborator. -/
theorem empty_stop_not_error_still_forwards (st : ServerState)
    (ha : st.active = true) (hempty : st.startIdx = st.receiving) :
    (stopDemo st).1 = StopOutcome.forward []
  ∧ (stopDemo st).1 ≠ StopOutcome.notRunning
  ∧ (stopDemo st).2.active = false := by
  rw [stopDemo_active st ha]
  refine ⟨?_, by simp, rfl⟩
  show StopOutcome.forward (stopCombine st.packets st.startIdx st.receiving) = _
  rw [hempty]
  unfold stopCombine
  rw [Nat.sub_self]
  rfl

/-- Witness for `empty_stop_not_error_still_forwards` right after a
session start. -/
theorem empty_stop_not_error_still_forwards_witness :
    (stopDemo (run [Op.start])).1 = StopOutcome.forward []
  ∧ (stopDemo (run [Op.start])).1 ≠ StopOutcome.notRunning
  ∧ (stopDemo (run [Op.start])).2.active = false :=
  empty_stop_not_error_still_forwards (run [Op.start]) (by decide) (by decide)

/-- Claim C3 counterexample: there is no `MAX_SAMPLES` cap and no
`BufferFull` rejection in the code: a third accepted packet is stored
with a 200 response and the packet counter reaches 3, where the claim
says the third call is rejected and the counter stays at 2. -/
theorem no_buffer_cap_counterexample :
    (uploadCsv true .ok (run capOps) capPkt).1 = UploadResult.ok
  ∧ (run (capOps ++ [Op.upload true .ok capPkt])).receiving = 3 := by
  decide

/-- Claim C3 (amended): ingest is unbounded: whenever the two
filesystem writes succeed (and the body is valid UTF-8 if the master
record already exists), the upload is accepted and the packet counter
increments — there is no capacity check at all. -/
theorem ingest_unbounded (st : ServerState) (b : Body)
    (h : st.masterExists = true → b.validUtf8 = true) :
    (uploadCsv true .ok st b).1 = UploadResult.ok
  ∧ (uploadCsv true .ok st b).2.receiving = st.receiving + 1 := by
  obtain ⟨h1, h2, -, -, -⟩ := uploadCsv_ok_result st b h
  exact ⟨h1, h2⟩

/-- Witness for `ingest_unbounded` at a concrete state and body. -/
theorem ingest_unbounded_witness :
    (uploadCsv true .ok recSt capPkt).1 = UploadResult.ok
  ∧ (uploadCsv true .ok recSt capPkt).2.receiving = recSt.receiving + 1 :=
  ingest_unbounded recSt capPkt (by decide)

/-- Claim C4 counterexample: `upload_csv` never reads the session
state: with the session idle (fresh process state), an upload still
advances the write cursor `CURRENT_RECEIVING`. -/
theorem idle_ingest_advances_counterexample :
    initState.active = false
  ∧ (uploadCsv true .ok initState pktOne).2.receiving ≠ initState.receiving := by
  decide

/-- Claim C4 (amended): only the poll side consults the session gate:
when the session is idle, `get_data` returns no-content without
touching either cursor, but `upload_csv` behaves identically whether
the session is idle or recording — its result and its write-cursor
advancement do not depend on the `active` flag. -/
theorem gate_poll_only (st : ServerState) (b : Body) (p : Bool)
    (ao : AppendOutcome) (h : st.active = false) :
    getData st = (PollResult.noContent, st)
  ∧ (uploadCsv p ao st b).1 = (uploadCsv p ao { st with active := true } b).1
  ∧ (uploadCsv p ao st b).2.receiving
      = (uploadCsv p ao { st with active := true } b).2.receiving := by
  obtain ⟨ac, si, rc, sc, pk, me, ms⟩ := st
  refine ⟨getData_inactive _ h, ?_, ?_⟩ <;>
  · unfold uploadCsv
    cases ao <;> split_ifs <;> rfl

/-- Witness for `gate_poll_only` at the fresh process state. -/
theorem gate_poll_only_witness :
    getData initState = (PollResult.noContent, initState)
  ∧ (uploadCsv true .ok initState pktOne).1
      = (uploadCsv true .ok { initState with active := true } pktOne).1
  ∧ (uploadCsv true .ok initState pktOne).2.receiving
      = (uploadCsv true .ok { initState with active := true } pktOne).2.receiving :=
  gate_poll_only initState pktOne true .ok rfl

/-- Claim C5 counterexample: an invalid-UTF-8 payload is NOT always
rejected: when `MASTER.csv` does not yet exist (first packet), the body
is decoded lossily, the call succeeds, and state is mutated (packet
file written, master appended, cursor advanced). -/
theorem lossy_first_packet_counterexample :
    invalidBody.validUtf8 = false
  ∧ (uploadCsv true .ok initState invalidBody).1 = UploadResult.ok
  ∧ (uploadCsv true .ok initState invalidBody).2.receiving = 1
  ∧ (uploadCsv true .ok initState invalidBody).2.packets 0 = some invalidBody
  ∧ (uploadCsv true .ok initState invalidBody).2.master ≠ initState.master := by
  decide

/-- Claim C5 (amended): the invalid-encoding rejection applies only
when the master record already exists: in that case an invalid-UTF-8
body yields a 400 with no state mutated; when the master record does
not exist yet, any body — valid or not — is accepted via lossy
decoding and the upload proceeds. -/
theorem invalid_utf8_rejection (st st' : ServerState) (b b' : Body)
    (p : Bool) (ao : AppendOutcome) (hm : st.masterExists = true)
    (hv : b.validUtf8 = false) (hm' : st'.masterExists = false) :
    uploadCsv p ao st b = (UploadResult.badRequest, st)
  ∧ (uploadCsv true .ok st' b').1 = UploadResult.ok
  ∧ (uploadCsv true .ok st' b').2.receiving = st'.receiving + 1 := by
  have h' : st'.masterExists = true → b'.validUtf8 = true := by
    intro hc
    rw [hm'] at hc
    exact Bool.noConfusion hc
  refine ⟨?_, (uploadCsv_ok_result st' b' h').1,
    (uploadCsv_ok_result st' b' h').2.1⟩
  unfold uploadCsv
  rw [hm, hv]
  rfl

/-- Witness for `invalid_utf8_rejection` at concrete states. -/
theorem invalid_utf8_rejection_witness :
    uploadCsv true .ok recSt invalidBody = (UploadResult.badRequest, recSt)
  ∧ (uploadCsv true .ok initState pktOne).1 = UploadResult.ok
  ∧ (uploadCsv true .ok initState pktOne).2.receiving = initState.receiving + 1 :=
  invalid_utf8_rejection recSt initState invalidBody pktOne true .ok
    (by decide) (by decide) (by decide)

/-- Claim C6 counterexample: the header of a non-first packet is
dropped only when the packet contains a line terminator
(`buf.find('\n')`).  A header-only packet without a trailing newline is
appended verbatim, so the assembled payload contains its header line a
second time — refuting "exactly one header line, regardless". -/
theorem aggregation_header_counterexample :
    stopCombine hdrOnlyStore 0 2 = strChars "t,v\n1,10\nt,v\n"
  ∧ (rustLines (stopCombine hdrOnlyStore 0 2)).count (strChars "t,v") = 2 := by
  decide

/-- Claim C6 (amended): for a stop-time aggregation over a non-empty
range in which every index is stored as valid text ending in a line
terminator, the packets are concatenated in index order with the first
line dropped from every packet except the first in the range, so the
line sequence of the assembled payload is exactly the first packet's
lines followed by the non-header lines of every later packet — one
header line in total.  (A stored packet without a line terminator
escapes the header drop, hence the hypothesis.) -/
theorem aggregation_single_header (packets : Nat → Option Body)
    (startIdx endIdx : Nat) (hlt : startIdx < endIdx)
    (hstored : ∀ i, startIdx ≤ i → i < endIdx →
      ∃ b, packets i = some b ∧ b.validUtf8 = true
        ∧ b.lossy.getLast? = some '\n') :
    rustLines (stopCombine packets startIdx endIdx)
      = rustLines (contentOf (packets startIdx))
        ++ ((forRange (startIdx + 1) (endIdx - (startIdx + 1))).map
            (fun i => (rustLines (contentOf (packets i))).drop 1)).flatten := by
  obtain ⟨b0, hb0, -, hnl0⟩ := hstored startIdx le_rfl hlt
  rw [stopCombine_of_stored packets startIdx endIdx hlt hstored]
  have h0 : (contentOf (packets startIdx)).getLast? = some '\n' := by
    rw [hb0]
    exact hnl0
  have hps : ∀ p ∈ (forRange (startIdx + 1) (endIdx - (startIdx + 1))).map
      (fun i => contentOf (packets i)), p.getLast? = some '\n' := by
    intro p hp
    rw [List.mem_map] at hp
    obtain ⟨i, hi, rfl⟩ := hp
    rw [mem_forRange] at hi
    obtain ⟨b, hb, -, hnl⟩ := hstored i (by omega) (by omega)
    rw [hb]
    exact hnl
  have := rustLines_concat_drops (contentOf (packets startIdx)) h0
    ((forRange (startIdx + 1) (endIdx - (startIdx + 1))).map
      (fun i => contentOf (packets i))) hps
  rw [List.map_map, List.map_map] at this
  simpa [Function.comp] using this

/-- Witness for `aggregation_single_header` on a concrete two-packet
store. -/
theorem aggregation_single_header_witness :
    rustLines (stopCombine demoStore 0 2)
      = rustLines (contentOf (demoStore 0))
        ++ ((forRange (0 + 1) (2 - (0 + 1))).map
            (fun i => (rustLines (contentOf (demoStore i))).drop 1)).flatten :=
  aggregation_single_header demoStore 0 2 (by decide)
    (by
      intro i h1 h2
      interval_cases i
      · exact ⟨pktOne, rfl, rfl, by decide⟩
      · exact ⟨pktTwo, rfl, rfl, by decide⟩)

/-- Claim C7: the spec's invariant `read_cursor ≤ write_cursor` is the
intent, but the code violates it under concurrency.  `get_data` does
its caught-up comparison while holding the mutex, then drops the lock
(`drop(st)`) and performs the blocking file read, and only afterwards
runs `CURRENT_SENDING.fetch_add(1)` — so the check and the advance are
not one atomic claim.  This theorem replays the interleaving
check1, check2, deliver1, deliver2 of two overlapping `GET /data`
calls on a state with `sending = 0 < receiving = 1`: both checks pass
on the same pre-state (both obtain index 0, so neither returns 204),
both deliveries then succeed and each performs its fetch_add, leaving
`sending = 2 > receiving = 1` — the invariant is broken and the same
packet was delivered twice.  (Sequentially the invariant does hold:
see `step_cursor_le` and `foldl_step_cursor_le`.) -/
theorem poll_race_violates_invariant :
    raceSt.sending = 0 ∧ raceSt.receiving = 1
  ∧ pollCheck raceSt = some 0
  ∧ (pollDeliver raceSt 0).1 = PollResult.okBody pktOne.lossy
  ∧ (pollDeliver (pollDeliver raceSt 0).2 0).1
      = PollResult.okBody pktOne.lossy
  ∧ (pollDeliver (pollDeliver raceSt 0).2 0).2.sending = 2
  ∧ (pollDeliver (pollDeliver raceSt 0).2 0).2.receiving = 1
  ∧ ¬ (pollDeliver (pollDeliver raceSt 0).2 0).2.sending
      ≤ (pollDeliver (pollDeliver raceSt 0).2 0).2.receiving := by
  decide

/-- Claim C8: `start_demo` rejects with "Demo already running" when the
session is already recording, and `stop_demo` rejects with "No demo
running" when it is idle; in both failure cases the whole state —
including the `active` flag and `start_idx` — is returned unchanged. -/
theorem session_state_errors (st : ServerState) :
    (st.active = true → startDemo st = (StartResult.alreadyRunning, st))
  ∧ (st.active = false → stopDemo st = (StopOutcome.notRunning, st)) :=
  ⟨fun h => startDemo_active st h, fun h => stopDemo_idle st h⟩

/-- Witness for `session_state_errors` at concrete states. -/
theorem session_state_errors_witness :
    startDemo recSt = (StartResult.alreadyRunning, recSt)
  ∧ stopDemo initState = (StopOutcome.notRunning, initState) :=
  ⟨(session_state_errors recSt).1 rfl, (session_state_errors initState).2 rfl⟩

/-- Claim C9: when the per-packet file write succeeds but the append to
`MASTER.csv` fails — whether the open itself fails, or the open
succeeds (creating `MASTER.csv` via `create(true)` if it was missing)
and the write then fails — the handler returns the 500 master-write
error after the packet file at the current index has already been
written, and `CURRENT_RECEIVING` is not advanced; a later upload that
succeeds therefore reuses that same index, overwriting the earlier
packet file, and only then advances the cursor.  The follow-up
upload's validity hypothesis is stated against the actual post-failure
state, whose `masterExists` may have been set by the failed append's
`create(true)`. -/
theorem master_append_failure_reuses_index (st : ServerState) (b b2 : Body)
    (ao : AppendOutcome) (hao : ao ≠ AppendOutcome.ok)
    (hb : st.masterExists = true → b.validUtf8 = true)
    (hb2 : (uploadCsv true ao st b).2.masterExists = true →
      b2.validUtf8 = true) :
    (uploadCsv true ao st b).1 = UploadResult.masterWriteErr
  ∧ (uploadCsv true ao st b).2.packets st.receiving = some b
  ∧ (uploadCsv true ao st b).2.receiving = st.receiving
  ∧ (uploadCsv true .ok (uploadCsv true ao st b).2 b2).1 = UploadResult.ok
  ∧ (uploadCsv true .ok (uploadCsv true ao st b).2 b2).2.packets
      st.receiving = some b2
  ∧ (uploadCsv true .ok (uploadCsv true ao st b).2 b2).2.receiving
      = st.receiving + 1 := by
  have hcond : (st.masterExists && !b.validUtf8) = false := by
    cases hm : st.masterExists
    · rfl
    · rw [hb hm]
      rfl
  cases ao with
  | ok => exact absurd rfl hao
  | openErr =>
    have hfail : uploadCsv true AppendOutcome.openErr st b
        = (UploadResult.masterWriteErr,
          { st with packets := fun i =>
              if i = st.receiving then some b else st.packets i }) := by
      unfold uploadCsv
      rw [hcond]
      rfl
    rw [hfail] at hb2 ⊢
    obtain ⟨r1, r2, r3, -, -⟩ := uploadCsv_ok_result
      { st with packets := fun i =>
          if i = st.receiving then some b else st.packets i } b2 hb2
    exact ⟨rfl, by simp, rfl, r1, r3, r2⟩
  | writeErr =>
    have hfail : uploadCsv true AppendOutcome.writeErr st b
        = (UploadResult.masterWriteErr,
          { st with
            packets :=
              (fun i => if i = st.receiving then some b else st.packets i),
            masterExists := true }) := by
      unfold uploadCsv
      rw [hcond]
      rfl
    rw [hfail] at hb2 ⊢
    obtain ⟨r1, r2, r3, -, -⟩ := uploadCsv_ok_result
      { st with
        packets :=
          (fun i => if i = st.receiving then some b else st.packets i),
        masterExists := true } b2 hb2
    exact ⟨rfl, by simp, rfl, r1, r3, r2⟩

/-- Witness for `master_append_failure_reuses_index`: a write failure
after a successful open, then a successful retry at the same index. -/
theorem master_append_failure_reuses_index_witness :
    (uploadCsv true AppendOutcome.writeErr recSt pktOne).1
      = UploadResult.masterWriteErr
  ∧ (uploadCsv true AppendOutcome.writeErr recSt pktOne).2.packets
      recSt.receiving = some pktOne
  ∧ (uploadCsv true AppendOutcome.writeErr recSt pktOne).2.receiving
      = recSt.receiving
  ∧ (uploadCsv true .ok
      (uploadCsv true AppendOutcome.writeErr recSt pktOne).2 pktTwo).1
      = UploadResult.ok
  ∧ (uploadCsv true .ok
      (uploadCsv true AppendOutcome.writeErr recSt pktOne).2 pktTwo).2.packets
      recSt.receiving = some pktTwo
  ∧ (uploadCsv true .ok
      (uploadCsv true AppendOutcome.writeErr recSt pktOne).2 pktTwo).2.receiving
      = recSt.receiving + 1 :=
  master_append_failure_reuses_index recSt pktOne pktTwo
    AppendOutcome.writeErr (by decide) (by decide) (by decide)

/-- Claim C10: an upload's header line is kept in the (successful)
master append exactly when `MASTER.csv` does not yet exist at the time
of the upload — then the whole body is appended, otherwise its first
line is dropped.  `MASTER.csv` is removed only at process start:
session start and stop never remove it or touch its contents, no
operation ever clears `masterExists`, and from the fresh process state
the file exists after a request sequence exactly when the sequence
contains an upload that reached the `create(true)` open (a failed
write after a successful open still creates the file).  Hence at most
one upload in the whole process lifetime — the first to reach the
open — keeps its header, and this choice is never reset between
sessions. -/
theorem master_header_process_lifetime :
    (∀ st b, b.validUtf8 = true →
      (uploadCsv true .ok st b).2.master
        = st.master
          ++ (if st.masterExists then joinNl ((rustLines b.lossy).drop 1)
              else b.lossy)
          ++ ['\n'])
  ∧ (∀ st, (startDemo st).2.masterExists = st.masterExists
      ∧ (stopDemo st).2.masterExists = st.masterExists
      ∧ (startDemo st).2.master = st.master
      ∧ (stopDemo st).2.master = st.master)
  ∧ (∀ st op, st.masterExists = true → (step st op).masterExists = true)
  ∧ (∀ ops, (run ops).masterExists = ops.any opensMasterUpload) := by
  refine ⟨fun st b hv => (uploadCsv_ok_result st b (fun _ => hv)).2.2.2.2,
    fun st => ⟨(startDemo_frame st).2.1, (stopDemo_frame st).2.2.2.1,
      (startDemo_frame st).2.2, (stopDemo_frame st).2.2.2.2⟩,
    fun st op hme => ?_,
    fun ops => ?_⟩
  · rw [step_masterExists, hme]
    rfl
  · show (ops.foldl step initState).masterExists = _
    rw [foldl_step_masterExists]
    rfl

/-- Witness for `master_header_process_lifetime` at concrete inputs. -/
theorem master_header_process_lifetime_witness :
    (uploadCsv true .ok initState pktOne).2.master
      = initState.master
        ++ (if initState.masterExists then
              joinNl ((rustLines pktOne.lossy).drop 1)
            else pktOne.lossy)
        ++ ['\n']
  ∧ (step recSt Op.stop).masterExists = true
  ∧ (run dedupOps).masterExists = dedupOps.any opensMasterUpload :=
  ⟨master_header_process_lifetime.1 initState pktOne rfl,
   master_header_process_lifetime.2.2.1 recSt Op.stop rfl,
   master_header_process_lifetime.2.2.2 dedupOps⟩

end WS
